import Mathlib

/-!
Verification of the Claw Game tournament engine against its specification.

The development shallowly embeds the Python sources under src/api
(game_engine.py, main.py, models.py, config.py) into Lean:

* pure game-engine functions (commit hashing, reveal verification, secret
  derivation, distances, elimination, final ranking) become Lean functions
  over lists and strings;
* the stateful tournament flow (rounds, commits, entries, phase scheduler)
  becomes explicit state passing over record types mirroring the SQLAlchemy
  models, with wall-clock timestamps modelled as natural numbers (seconds);
* keccak256 (hashlib.sha3_256), an external cryptographic primitive that is
  not part of this repository, is modelled as an arbitrary function
  `keccak : List Nat -> List Nat` passed as a parameter; every theorem below
  holds for every such function, so in particular for the real keccak256;
* Python dicts keyed by wallet address are modelled as association lists in
  insertion order (Python dict iteration order);
* the Python builtin `sorted` (a stable sort) is modelled by
  `List.insertionSort`, which is also stable, so both produce identical
  output for the total preorders used here;
* Python string comparison is code-point lexicographic, modelled by
  `charListLe` on `String.data`; `str.lower` is modelled by mapping
  `Char.toLower` (the strings involved are ASCII hex strings);
* fallible Python operations (bytes.fromhex, int.to_bytes raising) return
  `Option`; an HTTP endpoint returns `Except String Tournament`, where an
  error models an HTTPException (the session is rolled back, so no state
  change is observed).
-/

namespace ClawGame

/-! Configuration constants from src/api/config.py. -/

def BID_MIN : Nat := 1
def BID_MAX : Nat := 1000
def MAX_PLAYERS : Nat := 25
def COMMIT_DURATION : Nat := 300
def REVEAL_DURATION : Nat := 300
def CANCEL_DEADLINE : Nat := 7 * 86400

/-! GameVariant (models.py): CLASSIC = 0, INVERSE = 1, RANGE = 2. -/

def CLASSIC : Nat := 0
def INVERSE : Nat := 1

/-! Hex and byte-string helpers modelling the Python primitives used by
game_engine.py: `bytes.fromhex`, `int.to_bytes(2, "big")`,
`int.from_bytes(_, "big")`, `hashlib._Hash.hexdigest`, `str.replace("0x", "")`
and `str.lower`. Bytes are naturals below 256. -/

/-- Value of a hexadecimal digit character, as accepted by `bytes.fromhex`
(which is case-insensitive). -/
def hexVal (c : Char) : Option Nat :=
  if 48 ≤ c.toNat ∧ c.toNat ≤ 57 then some (c.toNat - 48)
  else if 97 ≤ c.toNat ∧ c.toNat ≤ 102 then some (c.toNat - 87)
  else if 65 ≤ c.toNat ∧ c.toNat ≤ 70 then some (c.toNat - 55)
  else none

/-- Model of `bytes.fromhex`: two hex digits per byte, ASCII spaces between
bytes skipped, anything else (including an odd trailing digit) is an error. -/
def fromhexChars : List Char → Option (List Nat)
  | [] => some []
  | ' ' :: rest => fromhexChars rest
  | c1 :: c2 :: rest =>
    match hexVal c1, hexVal c2, fromhexChars rest with
    | some h, some l, some bs => some ((h * 16 + l) :: bs)
    | _, _, _ => none
  | _ => none

/-- Model of `s.replace("0x", "")`: remove all non-overlapping occurrences of
the two-character substring, scanning left to right. -/
def remove0x : List Char → List Char
  | '0' :: 'x' :: rest => remove0x rest
  | c :: rest => c :: remove0x rest
  | [] => []

/-- Lowercase hex digit character for a value below 16 (as produced by
`hexdigest`). -/
def hexDigitChar (n : Nat) : Char :=
  if n < 10 then Char.ofNat (48 + n) else Char.ofNat (87 + n)

/-- Model of `hexdigest` on a byte string: two lowercase hex characters per
byte, high digit first. -/
def bytesToHexChars : List Nat → List Char
  | [] => []
  | b :: bs => hexDigitChar (b / 16 % 16) :: hexDigitChar (b % 16) :: bytesToHexChars bs

/-- Model of `int.from_bytes(bs, "big")`. -/
def beBytesToNat (bs : List Nat) : Nat :=
  bs.foldl (fun acc b => acc * 256 + b) 0

/-- Model of `bid.to_bytes(2, "big")`: raises OverflowError (none) unless the
value fits in two bytes. -/
def toBytes2BE (bid : Int) : Option (List Nat) :=
  if 0 ≤ bid ∧ bid < 65536 then some [bid.toNat / 256, bid.toNat % 256] else none

/-- Model of `str.lower` for the ASCII hex strings compared here. -/
def lowerStr (s : String) : String :=
  String.mk (s.data.map Char.toLower)

/-- Code-point lexicographic comparison of character lists; this is exactly
how Python compares the salt strings passed to `sorted`. -/
def charListLe : List Char → List Char → Bool
  | [], _ => true
  | _ :: _, [] => false
  | a :: as, b :: bs =>
    if a.toNat < b.toNat then true
    else if b.toNat < a.toNat then false
    else charListLe as bs

/-- Python string order, as a relation for `List.insertionSort`. -/
def strLe (a b : String) : Prop := charListLe a.data b.data = true

instance : DecidableRel strLe :=
  fun a b => inferInstanceAs (Decidable (charListLe a.data b.data = true))

/-- Sort key used by `GameEngine.eliminate` for the CLASSIC variant:
`(distance, address)` ascending, matching `key=lambda x: (x[1], x[0])` on
dict items `(address, distance)`. -/
def keyLe (x y : String × Int) : Prop :=
  x.2 < y.2 ∨ (x.2 = y.2 ∧ charListLe x.1.data y.1.data = true)

instance : DecidableRel keyLe := fun _ _ => inferInstanceAs (Decidable (_ ∨ _))

/-- Sort key used for the INVERSE variant: `(-distance, address)` ascending,
matching `key=lambda x: (-x[1], x[0])`. -/
def keyGe (x y : String × Int) : Prop :=
  y.2 < x.2 ∨ (x.2 = y.2 ∧ charListLe x.1.data y.1.data = true)

instance : DecidableRel keyGe := fun _ _ => inferInstanceAs (Decidable (_ ∨ _))

/-! The pure GameEngine functions (src/api/game_engine.py). -/

/-- GameEngine.compute_commit_hash:
keccak256(uint16 big-endian bid || fromhex(salt without 0x)), rendered as
"0x" plus the lowercase hexdigest. Returns none where Python raises
(bid out of two-byte range, salt not valid hex). -/
def compute_commit_hash (keccak : List Nat → List Nat) (bid : Int) (salt : String) :
    Option String :=
  match toBytes2BE bid, fromhexChars (remove0x salt.data) with
  | some bid_bytes, some salt_bytes =>
    some (String.mk ('0' :: 'x' :: bytesToHexChars (keccak (bid_bytes ++ salt_bytes))))
  | _, _ => none

/-- GameEngine.verify_reveal: recompute the commit hash and compare
case-insensitively with the stored hash. -/
def verify_reveal (keccak : List Nat → List Nat) (commit_hash : String) (bid : Int)
    (salt : String) : Option Bool :=
  match compute_commit_hash keccak bid salt with
  | some computed => some (decide (lowerStr computed = lowerStr commit_hash))
  | none => none

/-- The byte string `uint16(bid) || fromhex(salt)` that compute_commit_hash
feeds to keccak256 (the argument of the hash in
`keccak256(abi.encodePacked(uint16(bid), bytes32(salt)))`). -/
def packedMessage (bid : Int) (salt : String) : Option (List Nat) :=
  match toBytes2BE bid, fromhexChars (remove0x salt.data) with
  | some bid_bytes, some salt_bytes => some (bid_bytes ++ salt_bytes)
  | _, _ => none

/-- GameEngine.compute_secret: sort the salt strings (Python string order),
concatenate their bytes, hash, interpret the first four digest bytes as a
big-endian integer, reduce mod 1000 and add 1. -/
def compute_secret (keccak : List Nat → List Nat) (salts : List String) : Option Nat :=
  let sortedSalts := List.insertionSort strLe salts
  match sortedSalts.mapM (fun s => fromhexChars (remove0x s.data)) with
  | some chunks =>
    some (beBytesToNat ((keccak chunks.flatten).take 4) % 1000 + 1)
  | none => none

/-- GameEngine.compute_distances: absolute distance from the secret for each
player, in dict (insertion) order. The variant argument is unused in the
source as well. -/
def compute_distances (bids : List (String × Int)) (secret : Int) :
    List (String × Int) :=
  bids.map (fun p => (p.1, |p.2 - secret|))

/-- GameEngine.eliminate: with five or fewer players no one is eliminated;
otherwise sort by (distance, address) for CLASSIC or (-distance, address) for
INVERSE and keep the first ceil(n/2) players. -/
def eliminate (distances : List (String × Int)) (variant : Nat) :
    List String × List String :=
  if distances.length ≤ 5 then (distances.map Prod.fst, [])
  else
    let sorted_players :=
      if variant = INVERSE then List.insertionSort keyGe distances
      else List.insertionSort keyLe distances
    let survive_count := (sorted_players.length + 1) / 2
    ((sorted_players.take survive_count).map Prod.fst,
     (sorted_players.drop survive_count).map Prod.fst)

/-- GameEngine.determine_final_ranking: order all remaining players by the
variant comparator, winner first. -/
def determine_final_ranking (distances : List (String × Int)) (variant : Nat) :
    List String :=
  if variant = INVERSE then (List.insertionSort keyGe distances).map Prod.fst
  else (List.insertionSort keyLe distances).map Prod.fst

/-! Data model (src/api/models.py), restricted to the tournament aggregate.
Rows owned by a tournament (rounds, commits, entries) are embedded as lists;
ids are replaced by the natural keys used in the queries: rounds are looked
up by (tournament, round_number) and commits and entries by address, exactly
as main.py and game_engine.py do. The Agent statistics table and the
blockchain client are external to the aggregate and not modelled.
Timestamps are naturals (seconds); a nullable DB column is an Option. -/

inductive TournamentState
  | OPEN
  | ACTIVE
  | COMMIT
  | REVEAL
  | RESOLVING
  | FINISHED
  | CANCELLED
deriving DecidableEq, Repr

structure RoundCommit where
  agent_address : String
  commit_hash : String
  bid : Option Int := none
  salt : Option String := none
  revealed : Bool := false
  eliminated : Bool := false
  distance : Option Int := none
  revealed_at : Option Nat := none
deriving DecidableEq, Repr

structure Round where
  round_number : Nat
  secret_number : Option Nat := none
  players_start : Nat := 0
  players_end : Nat := 0
  commit_deadline : Option Nat := none
  reveal_deadline : Option Nat := none
  resolved_at : Option Nat := none
  commits : List RoundCommit := []
deriving DecidableEq, Repr

structure TournamentEntry where
  agent_address : String
  is_alive : Bool := true
  final_rank : Option Nat := none
deriving DecidableEq, Repr

structure Tournament where
  state : TournamentState := TournamentState.OPEN
  variant : Nat := CLASSIC
  player_count : Nat := 0
  current_round : Nat := 0
  phase_deadline : Option Nat := none
  winner_address : Option String := none
  finalist_addresses : Option (List String) := none
  created_at : Nat := 0
  started_at : Option Nat := none
  finished_at : Option Nat := none
  rounds : List Round := []
  entries : List TournamentEntry := []
deriving DecidableEq, Repr

/-- Round lookup by round number, modelling
`select(Round).where(tournament_id == .., round_number == ..)` followed by
`scalar_one_or_none()`: some round when exactly one row matches, none when no
row matches; the multiple-row case raises in Python, which every caller turns
into a no-op, so it is folded into none here. -/
def findRound (rounds : List Round) (n : Nat) : Option Round :=
  match rounds.filter (fun r => decide (r.round_number = n)) with
  | [r] => some r
  | _ => none

/-- Write an updated round back, modelling the ORM update of the row with
this round number. -/
def replaceRound (rounds : List Round) (n : Nat) (x : Round) : List Round :=
  rounds.map (fun r => if r.round_number = n then x else r)

/-- Commit lookup by agent address within a round, with the same
`scalar_one_or_none` convention as `findRound`. -/
def findCommit (commits : List RoundCommit) (addr : String) : Option RoundCommit :=
  match commits.filter (fun c => decide (c.agent_address = addr)) with
  | [c] => some c
  | _ => none

/-- Write an updated commit back by agent address. -/
def replaceCommit (commits : List RoundCommit) (addr : String) (x : RoundCommit) :
    List RoundCommit :=
  commits.map (fun c => if c.agent_address = addr then x else c)

/-! The tournament flow (game_engine.py, TOURNAMENT FLOW section). -/

/-- Condition under which resolve_round counts a commit as revealed:
`c.revealed and c.bid is not None and c.salt is not None`. -/
def revealedOk (c : RoundCommit) : Bool :=
  c.revealed && c.bid.isSome && c.salt.isSome

/-- The `revealed_bids` dict built by resolve_round, in commit order. -/
def revealedBids (commits : List RoundCommit) : List (String × Int) :=
  commits.filterMap (fun c =>
    if revealedOk c then some (c.agent_address, c.bid.getD 0) else none)

/-- The `revealed_salts` list built by resolve_round, in commit order. -/
def revealedSalts (commits : List RoundCommit) : List String :=
  commits.filterMap (fun c => if revealedOk c then c.salt else none)

/-- The `non_revealers` list built by resolve_round, in commit order. -/
def nonRevealers (commits : List RoundCommit) : List String :=
  (commits.filter (fun c => !revealedOk c)).map (fun c => c.agent_address)

/-- The first loop of resolve_round sets `eliminated = True` on every commit
that did not properly reveal. -/
def markNonRevealers (commits : List RoundCommit) : List RoundCommit :=
  commits.map (fun c => if revealedOk c then c else { c with eliminated := true })

inductive ResolveType
  | no_reveals
  | final
  | elimination
deriving DecidableEq, Repr

/-- The result dict returned by resolve_round; keys that a given outcome does
not carry are empty. -/
structure ResolveResult where
  rtype : ResolveType
  secret : Option Nat := none
  survivors : List String := []
  eliminated : List String := []
  ranking : List String := []
  non_revealers : List String := []
deriving DecidableEq, Repr

/-- GameEngine.start_tournament: move to ACTIVE, create round 1 with a reveal
deadline (registration-time submission is the implicit commit of round 1),
then move to REVEAL with that deadline. -/
def start_tournament (now : Nat) (t : Tournament) : Tournament :=
  let round1 : Round := {
    round_number := 1
    players_start := t.player_count
    reveal_deadline := some (now + REVEAL_DURATION) }
  { t with
    state := TournamentState.REVEAL
    started_at := some now
    current_round := 1
    rounds := t.rounds ++ [round1]
    phase_deadline := some (now + REVEAL_DURATION) }

/-- GameEngine.start_new_round: bump the round counter, create a round with a
commit deadline for the survivors, and enter the COMMIT phase. -/
def start_new_round (now : Nat) (t : Tournament) (alive_count : Nat) : Tournament :=
  let new_round : Round := {
    round_number := t.current_round + 1
    players_start := alive_count
    commit_deadline := some (now + COMMIT_DURATION) }
  { t with
    current_round := t.current_round + 1
    rounds := t.rounds ++ [new_round]
    state := TournamentState.COMMIT
    phase_deadline := some (now + COMMIT_DURATION) }

/-- GameEngine.open_reveal_phase: set a fresh reveal deadline on the round
and enter the REVEAL phase. -/
def open_reveal_phase (now : Nat) (t : Tournament) (r : Round) : Tournament :=
  { t with
    rounds := replaceRound t.rounds r.round_number
      { r with reveal_deadline := some (now + REVEAL_DURATION) }
    state := TournamentState.REVEAL
    phase_deadline := some (now + REVEAL_DURATION) }

/-- GameEngine.resolve_round. The second component is the returned result
dict; none models the ValueError escaping when a stored salt fails to parse
(impossible for salts stored through the reveal endpoint), in which case the
mutations already made to the commits are kept, exactly as the session keeps
them when process_phase_transitions catches the exception and the manager
loop later commits. -/
def resolve_round (keccak : List Nat → List Nat) (now : Nat) (t : Tournament)
    (r : Round) : Tournament × Option ResolveResult :=
  let commits := r.commits
  let revealed_bids := revealedBids commits
  let revealed_salts := revealedSalts commits
  let non_revealers := nonRevealers commits
  let commits1 := markNonRevealers commits
  if revealed_salts.isEmpty then
    let r1 := { r with
      secret_number := some 0
      players_end := 0
      resolved_at := some now
      commits := commits1 }
    ({ t with rounds := replaceRound t.rounds r.round_number r1 },
     some { rtype := ResolveType.no_reveals, survivors := [],
            eliminated := non_revealers, non_revealers := non_revealers })
  else
    match compute_secret keccak revealed_salts with
    | none =>
      ({ t with rounds := replaceRound t.rounds r.round_number { r with commits := commits1 } },
       none)
    | some secret =>
      let distances := compute_distances revealed_bids (secret : Int)
      let commits2 := commits1.map (fun c =>
        match distances.lookup c.agent_address with
        | some d => { c with distance := some d }
        | none => c)
      if revealed_bids.length ≤ 5 then
        let ranking := determine_final_ranking distances t.variant
        let r1 := { r with
          secret_number := some secret
          players_end := ranking.length
          resolved_at := some now
          commits := commits2 }
        ({ t with rounds := replaceRound t.rounds r.round_number r1 },
         some { rtype := ResolveType.final, secret := some secret,
                ranking := ranking, non_revealers := non_revealers })
      else
        let se := eliminate distances t.variant
        let commits3 := commits2.map (fun c =>
          if c.agent_address ∈ se.2 then { c with eliminated := true } else c)
        let entries1 := t.entries.map (fun e =>
          if e.agent_address ∈ se.2 ++ non_revealers then { e with is_alive := false } else e)
        let r1 := { r with
          secret_number := some secret
          players_end := se.1.length
          resolved_at := some now
          commits := commits3 }
        ({ t with
            state := TournamentState.RESOLVING
            rounds := replaceRound t.rounds r.round_number r1
            entries := entries1 },
         some { rtype := ResolveType.elimination, secret := some secret,
                survivors := se.1, eliminated := se.2 ++ non_revealers,
                non_revealers := non_revealers })

/-- GameEngine.finish_tournament: record winner and finalists and assign
final ranks to the top-five entries. The update of the Agent win counter
touches the external Agent table only and is outside the aggregate. -/
def finish_tournament (now : Nat) (t : Tournament) (ranking : List String) : Tournament :=
  { t with
    state := TournamentState.FINISHED
    finished_at := some now
    winner_address := ranking.head?
    finalist_addresses := some (if ranking.length > 1 then (ranking.drop 1).take 4 else [])
    entries := t.entries.map (fun e =>
      match (ranking.take 5).findIdx? (fun a => decide (a = e.agent_address)) with
      | some i => { e with final_rank := some (i + 1) }
      | none => e) }

/-! The background scheduler and the reveal endpoint (src/api/main.py). -/

/-- The selection criterion of process_phase_transitions:
`state in (COMMIT, REVEAL) and phase_deadline < now` (a NULL deadline never
satisfies the SQL comparison). -/
def tickGuard (now : Nat) (t : Tournament) : Bool :=
  (decide (t.state = TournamentState.COMMIT) || decide (t.state = TournamentState.REVEAL)) &&
  (match t.phase_deadline with
   | some d => decide (d < now)
   | none => false)

/-- One tick of process_phase_transitions for a single tournament: when the
deadline has passed, either open the reveal phase (from COMMIT) or resolve
the round (from REVEAL) and then finish the tournament or start the next
round. A missing (or ambiguous) round row makes the tick a no-op, as does
the caught per-tournament exception. The on-chain resolve/cancel calls are
external and best-effort and are not part of the aggregate. -/
def process_phase_transitions (keccak : List Nat → List Nat) (now : Nat)
    (t : Tournament) : Tournament :=
  if tickGuard now t then
    match findRound t.rounds t.current_round with
    | none => t
    | some r =>
      if t.state = TournamentState.COMMIT then
        open_reveal_phase now t r
      else
        match resolve_round keccak now t r with
        | (t1, none) => t1
        | (t1, some res) =>
          match res.rtype with
          | ResolveType.final => finish_tournament now t1 res.ranking
          | ResolveType.no_reveals => finish_tournament now t1 []
          | ResolveType.elimination => start_new_round now t1 res.survivors.length
  else t

/-- cancel_expired_tournaments for a single tournament: an OPEN tournament
older than the cancel window becomes CANCELLED. -/
def cancel_expired_tournaments (now : Nat) (t : Tournament) : Tournament :=
  if t.state = TournamentState.OPEN ∧ t.created_at + CANCEL_DEADLINE < now then
    { t with state := TournamentState.CANCELLED }
  else t

/-- Validation performed by pydantic on RevealRequest before the handler
runs: bid between 1 and 1000, salt matching `^0x[a-fA-F0-9]{64}$`. -/
def validRevealRequest (bid : Int) (salt : String) : Bool :=
  decide (1 ≤ bid ∧ bid ≤ 1000) &&
  (match salt.data with
   | '0' :: 'x' :: rest =>
     decide (rest.length = 64) && rest.all (fun c => (hexVal c).isSome)
   | _ => false)

/-- The reveal endpoint submit_reveal. An error models an HTTPException (or
pydantic 422), after which the session is rolled back, so the caller observes
no state change; the returned tournament on success carries the updated
commit row. -/
def submit_reveal (keccak : List Nat → List Nat) (now : Nat) (t : Tournament)
    (addr : String) (bid : Int) (salt : String) : Except String Tournament :=
  if ¬ (validRevealRequest bid salt = true) then Except.error "422 validation error"
  else if t.state ≠ TournamentState.REVEAL then Except.error "Not in reveal phase"
  else if (match t.phase_deadline with | some d => decide (d < now) | none => false) then
    Except.error "Reveal phase ended"
  else
    match findRound t.rounds t.current_round with
    | none => Except.error "Round not found"
    | some r =>
      match findCommit r.commits addr with
      | none => Except.error "No commit found for this round"
      | some c =>
        if c.revealed then Except.error "Already revealed"
        else
          match verify_reveal keccak c.commit_hash bid salt with
          | some true =>
            let c1 := { c with
              bid := some bid
              salt := some salt
              revealed := true
              revealed_at := some now }
            Except.ok { t with
              rounds := replaceRound t.rounds r.round_number
                { r with commits := replaceCommit r.commits addr c1 } }
          | some false => Except.error "Bid + salt mismatch"
          | none => Except.error "500 internal error"

/-- Boolean success test for an endpoint outcome. -/
def exceptOk {ε α : Type} : Except ε α → Bool
  | Except.ok _ => true
  | Except.error _ => false

instance {ε α : Type} [DecidableEq ε] [DecidableEq α] : DecidableEq (Except ε α) :=
  fun x y =>
  match x, y with
  | Except.ok a, Except.ok b =>
    if h : a = b then Decidable.isTrue (by rw [h]) else Decidable.isFalse (by simp [h])
  | Except.error a, Except.error b =>
    if h : a = b then Decidable.isTrue (by rw [h]) else Decidable.isFalse (by simp [h])
  | Except.ok _, Except.error _ => Decidable.isFalse (by simp)
  | Except.error _, Except.ok _ => Decidable.isFalse (by simp)

/-! Concrete instances used by witnesses and counterexamples. -/

/-- A toy stand-in digest function (sum of the input bytes, one output byte),
used to instantiate the keccak parameter on concrete inputs. -/
def ksum : List Nat → List Nat :=
  fun l => [l.foldl (fun a b => a + b) 0 % 256]

/-- A well-formed 32-byte salt: 64 zero hex digits. -/
def zeroSalt : String :=
  "0x0000000000000000000000000000000000000000000000000000000000000000"

/-- A well-formed 32-byte salt whose hex digits are letters. -/
def aSalt : String :=
  "0xaaaaaaaaaaaaaaaaaaaaaaaaaaaaaaaaaaaaaaaaaaaaaaaaaaaaaaaaaaaaaaaa"

/-- The salt `aSalt` with the first letter flipped to upper case: a
single-character, single-bit (bit 5) mutation with identical parsed bytes. -/
def aSaltFlip : String := String.mk (aSalt.data.set 2 'A')

/-- The phase-deadline invariant as amended: a non-null deadline occurs only
in the COMMIT, REVEAL or FINISHED states (finish_tournament never clears the
deadline, so a finished tournament keeps the stale deadline of its last
phase). -/
def phase_deadline_inv (t : Tournament) : Prop :=
  t.phase_deadline ≠ none →
    (t.state = TournamentState.COMMIT ∨ t.state = TournamentState.REVEAL ∨
      t.state = TournamentState.FINISHED)

instance (t : Tournament) : Decidable (phase_deadline_inv t) :=
  inferInstanceAs (Decidable (_ → _))

/-- Fixture: an unrevealed commit for participant 0xa whose stored hash is
the ksum commit of bid 5 with the zero salt. -/
def c6c : RoundCommit := { agent_address := "0xa", commit_hash := "0x05" }

/-- Fixture: round 1 holding only that commit. -/
def c6r : Round := { round_number := 1, commits := [c6c] }

/-- Fixture: a tournament in its reveal phase, round 1, deadline ahead. -/
def c6t : Tournament :=
  { state := TournamentState.REVEAL, current_round := 1,
    phase_deadline := some 100, rounds := [c6r],
    entries := [{ agent_address := "0xa" }] }

/-- Fixture: round 1 with a single commit that never revealed. -/
def c7r : Round :=
  { round_number := 1, commits := [{ agent_address := "0xa", commit_hash := "0xab" }] }

/-- Fixture: the tournament owning `c7r`, with its reveal deadline passed. -/
def c7t : Tournament :=
  { state := TournamentState.REVEAL, current_round := 1,
    phase_deadline := some 10, rounds := [c7r],
    entries := [{ agent_address := "0xa" }] }

/-- Fixture: a reveal-phase tournament whose round 1 received no commits at
all, with the deadline passed. -/
def c8t : Tournament :=
  { state := TournamentState.REVEAL, current_round := 1,
    phase_deadline := some 10, rounds := [{ round_number := 1 }] }

/-- Fixture: a tournament between rounds (the scheduler has just resolved
round 1), from which start_new_round opens round 2. -/
def c9base : Tournament :=
  { state := TournamentState.RESOLVING, current_round := 1,
    rounds := [{ round_number := 1, resolved_at := some 0 }] }

/-! Order-theoretic facts about the Python string order, needed to show that
sorting the salts removes submission-order bias. -/

theorem char_toNat_inj {a b : Char} (h : a.toNat = b.toNat) : a = b := by
  have h2 := congrArg Char.ofNat h
  rwa [Char.ofNat_toNat, Char.ofNat_toNat] at h2

theorem charListLe_cons (x y : Char) (xs ys : List Char) :
    charListLe (x :: xs) (y :: ys) = true ↔
      x.toNat < y.toNat ∨ (x.toNat = y.toNat ∧ charListLe xs ys = true) := by
  simp only [charListLe]
  by_cases h1 : x.toNat < y.toNat
  · simp [h1]
  · by_cases h2 : y.toNat < x.toNat
    · rw [if_neg h1, if_pos h2]
      simp only [Bool.false_eq_true, false_iff]
      rintro (h | ⟨h, -⟩) <;> omega
    · rw [if_neg h1, if_neg h2]
      have hxy : x.toNat = y.toNat := by omega
      simp [hxy, h1]

theorem charListLe_total : ∀ a b : List Char, charListLe a b = true ∨ charListLe b a = true := by
  intro a
  induction a with
  | nil => intro b; left; rfl
  | cons x xs ih =>
    intro b
    cases b with
    | nil => right; rfl
    | cons y ys =>
      rw [charListLe_cons, charListLe_cons]
      by_cases h1 : x.toNat < y.toNat
      · left; exact Or.inl h1
      · by_cases h2 : y.toNat < x.toNat
        · right; exact Or.inl h2
        · rcases ih ys with h | h
          · left; exact Or.inr ⟨by omega, h⟩
          · right; exact Or.inr ⟨by omega, h⟩

theorem charListLe_trans :
    ∀ a b c : List Char, charListLe a b = true → charListLe b c = true →
      charListLe a c = true := by
  intro a
  induction a with
  | nil => intro b c _ _; rfl
  | cons x xs ih =>
    intro b c hab hbc
    cases b with
    | nil => simp [charListLe] at hab
    | cons y ys =>
      cases c with
      | nil => simp [charListLe] at hbc
      | cons z zs =>
        rw [charListLe_cons] at hab hbc ⊢
        rcases hab with h1 | ⟨h1, r1⟩ <;> rcases hbc with h2 | ⟨h2, r2⟩
        · exact Or.inl (by omega)
        · exact Or.inl (by omega)
        · exact Or.inl (by omega)
        · exact Or.inr ⟨by omega, ih ys zs r1 r2⟩

theorem charListLe_antisymm :
    ∀ a b : List Char, charListLe a b = true → charListLe b a = true → a = b := by
  intro a
  induction a with
  | nil =>
    intro b _ hba
    cases b with
    | nil => rfl
    | cons y ys => simp [charListLe] at hba
  | cons x xs ih =>
    intro b hab hba
    cases b with
    | nil => simp [charListLe] at hab
    | cons y ys =>
      rw [charListLe_cons] at hab hba
      rcases hab with h1 | ⟨h1, r1⟩ <;> rcases hba with h2 | ⟨h2, r2⟩ <;> try omega
      have hxy : x = y := char_toNat_inj h1
      rw [hxy, ih ys r1 r2]

instance : IsTotal String strLe := ⟨fun a b => charListLe_total a.data b.data⟩

instance : IsTrans String strLe := ⟨fun a b c => charListLe_trans a.data b.data c.data⟩

instance : IsAntisymm String strLe :=
  ⟨fun a b hab hba => by
    have h := charListLe_antisymm a.data b.data hab hba
    cases a; cases b; exact congrArg String.mk h⟩

/-- Sorting with the Python string order is invariant under permutation of
the input: a stable sort of a permuted list yields the same sorted list. -/
theorem insertionSort_strLe_congr {l l' : List String} (h : l.Perm l') :
    List.insertionSort strLe l = List.insertionSort strLe l' :=
  List.eq_of_perm_of_sorted
    ((List.perm_insertionSort strLe l).trans (h.trans (List.perm_insertionSort strLe l').symm))
    (List.sorted_insertionSort strLe l) (List.sorted_insertionSort strLe l')

/-- The concatenation of what eliminate keeps and what it cuts is a
permutation of the input addresses, for either variant. -/
theorem eliminate_append_perm (distances : List (String × Int)) (variant : Nat) :
    ((eliminate distances variant).1 ++ (eliminate distances variant).2).Perm
      (distances.map Prod.fst) := by
  by_cases h : distances.length ≤ 5
  · simp [eliminate, h]
  · by_cases hv : variant = INVERSE <;>
    · simp only [eliminate, h, if_neg, if_pos, hv, reduceIte]
      rw [← List.map_append, List.take_append_drop]
      exact (List.perm_insertionSort _ _).map _

/-! Claim theorems. -/

/-- C2: for every distances map with n participants, eliminate returns
exactly ceil(n/2) = (n+1)/2 survivors and n - (n+1)/2 eliminated when n > 5,
and returns all n participants as survivors with an empty eliminated list
when n <= 5. -/
theorem C2_eliminate_split_counts (distances : List (String × Int)) (variant : Nat) :
    (5 < distances.length →
      (eliminate distances variant).1.length = (distances.length + 1) / 2 ∧
      (eliminate distances variant).2.length
        = distances.length - (distances.length + 1) / 2) ∧
    (distances.length ≤ 5 →
      eliminate distances variant = (distances.map Prod.fst, [])) := by
  constructor
  · intro h
    have h5 : ¬ distances.length ≤ 5 := by omega
    by_cases hv : variant = INVERSE <;>
    · simp only [eliminate, h5, if_neg, if_pos, hv, reduceIte]
      simp [List.length_take, List.length_insertionSort, List.length_drop]
      omega
  · intro h
    simp [eliminate, h]

/-- Witness for C2 at concrete inputs: six participants yield three
survivors and three eliminated; a singleton input is returned whole. -/
theorem C2_eliminate_split_counts_witness :
    ((eliminate [("a", 1), ("b", 2), ("c", 3), ("d", 4), ("e", 5), ("f", 6)] 0).1.length = 3 ∧
      (eliminate [("a", 1), ("b", 2), ("c", 3), ("d", 4), ("e", 5), ("f", 6)] 0).2.length = 3) ∧
    eliminate [("a", 1)] 0 = (["a"], []) := by
  refine ⟨?_, ?_⟩
  · have h := (C2_eliminate_split_counts
      [("a", 1), ("b", 2), ("c", 3), ("d", 4), ("e", 5), ("f", 6)] 0).1 (by decide)
    exact ⟨h.1, h.2⟩
  · exact (C2_eliminate_split_counts [("a", 1)] 0).2 (by decide)

/-- C3: compute_secret is invariant under permutation of the nonce list, and
every secret it returns lies in the configured bid range [BID_MIN, BID_MAX]
= [1, 1000]. Both facts hold for every hash function, hence for keccak256. -/
theorem C3_compute_secret_perm_range (keccak : List Nat → List Nat)
    (salts salts' : List String) (hp : salts.Perm salts') :
    compute_secret keccak salts = compute_secret keccak salts' ∧
    (∀ s, compute_secret keccak salts = some s → BID_MIN ≤ s ∧ s ≤ BID_MAX) := by
  constructor
  · have hs := insertionSort_strLe_congr hp
    simp only [compute_secret, hs]
  · intro s hsome
    simp only [compute_secret] at hsome
    rcases hmap : (List.insertionSort strLe salts).mapM
        (fun s => fromhexChars (remove0x s.data)) with _ | chunks
    · rw [hmap] at hsome; exact absurd hsome (by simp)
    · rw [hmap] at hsome
      simp only [Option.some.injEq] at hsome
      have : beBytesToNat ((keccak chunks.flatten).take 4) % 1000 < 1000 :=
        Nat.mod_lt _ (by omega)
      simp only [BID_MIN, BID_MAX]
      omega

/-- Witness for C3 at a concrete permutation pair and a concrete hash
function. -/
theorem C3_compute_secret_perm_range_witness :
    compute_secret (fun l => [l.foldl (fun a b => a + b) 0 % 256]) ["0b", "0a"]
      = compute_secret (fun l => [l.foldl (fun a b => a + b) 0 % 256]) ["0a", "0b"] ∧
    (∀ s, compute_secret (fun l => [l.foldl (fun a b => a + b) 0 % 256]) ["0b", "0a"]
      = some s → BID_MIN ≤ s ∧ s ≤ BID_MAX) :=
  C3_compute_secret_perm_range (fun l => [l.foldl (fun a b => a + b) 0 % 256])
    ["0b", "0a"] ["0a", "0b"] (by decide)

/-! Facts about the hex rendering of digests, used for the commit-reveal
claim: the rendered commit string is already lower case, and rendering is
injective on byte strings. -/

theorem toLower_hexDigitChar (b : Nat) (hb : b < 16) :
    Char.toLower (hexDigitChar b) = hexDigitChar b := by
  interval_cases b <;> decide

theorem map_toLower_bytesToHexChars (bs : List Nat) :
    (bytesToHexChars bs).map Char.toLower = bytesToHexChars bs := by
  induction bs with
  | nil => rfl
  | cons b l ih =>
    simp only [bytesToHexChars, List.map_cons, ih,
      toLower_hexDigitChar _ (Nat.mod_lt _ (by omega))]

theorem lowerStr_render (bs : List Nat) :
    lowerStr (String.mk ('0' :: 'x' :: bytesToHexChars bs))
      = String.mk ('0' :: 'x' :: bytesToHexChars bs) := by
  simp only [lowerStr, List.map_cons, map_toLower_bytesToHexChars,
    show Char.toLower '0' = '0' from by decide,
    show Char.toLower 'x' = 'x' from by decide]

theorem hexDigitChar_inj {a b : Nat} (ha : a < 16) (hb : b < 16)
    (h : hexDigitChar a = hexDigitChar b) : a = b := by
  have key : ∀ x : Fin 16, ∀ y : Fin 16,
      hexDigitChar x.val = hexDigitChar y.val → x.val = y.val := by decide
  exact key ⟨a, ha⟩ ⟨b, hb⟩ h

theorem bytesToHexChars_inj :
    ∀ {bs bs' : List Nat}, (∀ x ∈ bs, x < 256) → (∀ x ∈ bs', x < 256) →
      bytesToHexChars bs = bytesToHexChars bs' → bs = bs' := by
  intro bs
  induction bs with
  | nil =>
    intro bs' _ _ h
    cases bs' with
    | nil => rfl
    | cons b l => simp [bytesToHexChars] at h
  | cons b l ih =>
    intro bs' hv hv' h
    cases bs' with
    | nil => simp [bytesToHexChars] at h
    | cons b' l' =>
      simp only [bytesToHexChars, List.cons.injEq] at h
      obtain ⟨h1, h2, h3⟩ := h
      have hb : b < 256 := hv b (by simp)
      have hb' : b' < 256 := hv' b' (by simp)
      have e1 : b / 16 % 16 = b' / 16 % 16 :=
        hexDigitChar_inj (Nat.mod_lt _ (by omega)) (Nat.mod_lt _ (by omega)) h1
      have e2 : b % 16 = b' % 16 :=
        hexDigitChar_inj (Nat.mod_lt _ (by omega)) (Nat.mod_lt _ (by omega)) h2
      have eb : b = b' := by omega
      have el : l = l' :=
        ih (fun x hx => hv x (by simp [hx])) (fun x hx => hv' x (by simp [hx])) h3
      rw [eb, el]

theorem compute_commit_hash_packed {keccak : List Nat → List Nat} {bid : Int}
    {salt : String} {m : List Nat} (h : packedMessage bid salt = some m) :
    compute_commit_hash keccak bid salt
      = some (String.mk ('0' :: 'x' :: bytesToHexChars (keccak m))) := by
  unfold packedMessage at h
  unfold compute_commit_hash
  rcases h1 : toBytes2BE bid with _ | bb <;> rw [h1] at h
  · exact absurd h (by simp)
  · rcases h2 : fromhexChars (remove0x salt.data) with _ | sb <;> rw [h2] at h
    · exact absurd h (by simp)
    · simp only [Option.some.injEq] at h
      show some (String.mk ('0' :: 'x' :: bytesToHexChars (keccak (bb ++ sb)))) = _
      rw [h]

theorem verify_reveal_false_of_lower_ne {keccak : List Nat → List Nat} {bid : Int}
    {salt : String} {h H : String}
    (hc : compute_commit_hash keccak bid salt = some h)
    (hne : lowerStr h ≠ lowerStr H) :
    verify_reveal keccak H bid salt = some false := by
  unfold verify_reveal
  rw [hc]
  simp [hne]

/-- C4 (amended): for every valid pair the reveal verifies against its own
commit hash. A mutation of the stored hash makes verification fail exactly
when it changes the case-normalized hash string (a single-bit flip of the
case bit of a hex letter is absorbed, because the comparison is
case-insensitive); a mutation of value or nonce makes it fail whenever the
recomputed commit string differs case-insensitively, and in particular
whenever the two packed messages get distinct digests; a single-bit (indeed
any) change of a valid value always changes the packed message. -/
theorem C4_commit_reveal_amended (keccak : List Nat → List Nat) (bid : Int)
    (salt : String) (h : String)
    (hc : compute_commit_hash keccak bid salt = some h) :
    verify_reveal keccak h bid salt = some true ∧
    (∀ h', lowerStr h' ≠ lowerStr h → verify_reveal keccak h' bid salt = some false) ∧
    (∀ bid' salt' h', compute_commit_hash keccak bid' salt' = some h' →
      lowerStr h' ≠ lowerStr h → verify_reveal keccak h bid' salt' = some false) ∧
    (∀ bid' salt' m m', packedMessage bid salt = some m →
      packedMessage bid' salt' = some m' →
      (∀ x ∈ keccak m, x < 256) → (∀ x ∈ keccak m', x < 256) →
      keccak m ≠ keccak m' →
      verify_reveal keccak h bid' salt' = some false) ∧
    (∀ bid' m m', bid ≠ bid' → packedMessage bid salt = some m →
      packedMessage bid' salt = some m' → m ≠ m') := by
  refine ⟨?_, ?_, ?_, ?_, ?_⟩
  · unfold verify_reveal
    rw [hc]
    simp
  · intro h' hne
    exact verify_reveal_false_of_lower_ne hc (fun e => hne e.symm)
  · intro bid' salt' h' hc' hne
    exact verify_reveal_false_of_lower_ne hc' hne
  · intro bid' salt' m m' hm hm' hv hv' hkne
    have hc2 : compute_commit_hash keccak bid' salt'
        = some (String.mk ('0' :: 'x' :: bytesToHexChars (keccak m'))) :=
      compute_commit_hash_packed hm'
    refine verify_reveal_false_of_lower_ne hc2 ?_
    have hcm : compute_commit_hash keccak bid salt
        = some (String.mk ('0' :: 'x' :: bytesToHexChars (keccak m))) :=
      compute_commit_hash_packed hm
    rw [hcm] at hc
    have hh : h = String.mk ('0' :: 'x' :: bytesToHexChars (keccak m)) := by
      injection hc with hc
      exact hc.symm
    rw [hh, lowerStr_render, lowerStr_render]
    intro e
    injection e with e
    simp only [List.cons.injEq, true_and] at e
    exact hkne (bytesToHexChars_inj hv' hv e).symm
  · intro bid' m m' hbne hm hm'
    unfold packedMessage at hm hm'
    rcases h1 : toBytes2BE bid with _ | bb <;> rw [h1] at hm
    · exact absurd hm (by simp)
    rcases h2 : fromhexChars (remove0x salt.data) with _ | sb <;> rw [h2] at hm
    · exact absurd hm (by simp)
    rcases h1' : toBytes2BE bid' with _ | bb' <;> rw [h1'] at hm'
    · exact absurd hm' (by simp)
    rw [h2] at hm'
    simp only [Option.some.injEq] at hm hm'
    unfold toBytes2BE at h1 h1'
    by_cases c1 : 0 ≤ bid ∧ bid < 65536
    case neg => rw [if_neg c1] at h1; exact absurd h1 (by simp)
    rw [if_pos c1] at h1
    by_cases c2 : 0 ≤ bid' ∧ bid' < 65536
    case neg => rw [if_neg c2] at h1'; exact absurd h1' (by simp)
    rw [if_pos c2] at h1'
    simp only [Option.some.injEq] at h1 h1'
    intro e
    rw [← hm, ← hm', ← h1, ← h1'] at e
    simp only [List.cons_append, List.cons.injEq] at e
    obtain ⟨e1, e2, -⟩ := e
    apply hbne
    have hbid : bid.toNat = bid'.toNat := by omega
    omega

/-- Witness for C4 (amended) at concrete inputs: the toy digest of
(171, zero salt) renders as "0xab", verification succeeds against it and
fails against the distinct stored hash "0xff". -/
theorem C4_commit_reveal_amended_witness :
    verify_reveal ksum "0xab" 171 zeroSalt = some true ∧
    verify_reveal ksum "0xff" 171 zeroSalt = some false :=
  ⟨(C4_commit_reveal_amended ksum 171 zeroSalt "0xab" (by decide)).1,
   (C4_commit_reveal_amended ksum 171 zeroSalt "0xab" (by decide)).2.1 "0xff" (by decide)⟩

/-- C4 (counterexample): single-bit mutations that only flip the case bit
(value 32) of a hex letter do not make verification fail. Flipping the case
bit of the letter in the stored hash "0xab" gives the distinct string "0xAb",
which still verifies; flipping the case bit of a salt letter gives a distinct
salt with identical parsed bytes, which also still verifies. The same
argument applies verbatim to the real keccak256, since the mutated salt
parses to the same byte string. -/
theorem C4_commit_reveal_counterexample :
    compute_commit_hash ksum 171 zeroSalt = some "0xab" ∧
    String.mk ("0xab".data.set 2 'A') = "0xAb" ∧
    "0xAb" ≠ "0xab" ∧
    Nat.xor (Char.toNat 'a') (Char.toNat 'A') = 32 ∧
    verify_reveal ksum "0xAb" 171 zeroSalt = some true ∧
    compute_commit_hash ksum 5 aSalt = some "0x45" ∧
    aSaltFlip ≠ aSalt ∧
    aSaltFlip.data.length = aSalt.data.length ∧
    aSaltFlip.data.get? 2 = some 'A' ∧
    aSalt.data.get? 2 = some 'a' ∧
    verify_reveal ksum "0x45" 5 aSaltFlip = some true := by
  refine ⟨by decide, by decide, by decide, by decide, by decide, by decide,
    by decide, by decide, by decide, by decide, by decide⟩

/-- C5: the specified eight-participant scenario with secret 500. The
distances come out as stated, and the four survivors under the closest-wins
variant are p3, p6, p7, p2 in (distance, id) order, the exact ties at
distance 20 (p6, p7) and 400 (p4, p5) being broken by ascending participant
id. -/
theorem C5_scenario_secret_500 :
    compute_distances
      [("p1", 400), ("p2", 550), ("p3", 500), ("p4", 100), ("p5", 900),
       ("p6", 480), ("p7", 520), ("p8", 999)] 500
      = [("p1", 100), ("p2", 50), ("p3", 0), ("p4", 400), ("p5", 400),
         ("p6", 20), ("p7", 20), ("p8", 499)] ∧
    eliminate
      [("p1", 100), ("p2", 50), ("p3", 0), ("p4", 400), ("p5", 400),
       ("p6", 20), ("p7", 20), ("p8", 499)] CLASSIC
      = (["p3", "p6", "p7", "p2"], ["p1", "p4", "p5", "p8"]) := by
  constructor
  · decide
  · decide

/-- C10: for every input whose addresses are distinct (as dict keys are),
survivors and eliminated partition the input addresses: together they are a
permutation of the input keys and contain no duplicates, so each participant
occurs in exactly one of the two lists and nothing else occurs. -/
theorem C10_eliminate_partition (distances : List (String × Int)) (variant : Nat)
    (hnd : (distances.map Prod.fst).Nodup) :
    ((eliminate distances variant).1 ++ (eliminate distances variant).2).Perm
      (distances.map Prod.fst) ∧
    ((eliminate distances variant).1 ++ (eliminate distances variant).2).Nodup :=
  ⟨eliminate_append_perm distances variant,
   (eliminate_append_perm distances variant).symm.nodup hnd⟩

/-! Scheduler lemmas. After a tick acts, the resulting state either leaves
the selection criterion false (fresh deadline in the future, or a terminal
state) or is a fixpoint of resolution, which is what makes the tick
idempotent at a fixed timestamp. -/

theorem tickGuard_open_reveal (now : Nat) (t : Tournament) (r : Round) :
    tickGuard now (open_reveal_phase now t r) = false := by
  simp [tickGuard, open_reveal_phase]

theorem tickGuard_start_new_round (now : Nat) (t : Tournament) (k : Nat) :
    tickGuard now (start_new_round now t k) = false := by
  simp [tickGuard, start_new_round]

theorem tickGuard_finish (now now2 : Nat) (t : Tournament) (rk : List String) :
    tickGuard now2 (finish_tournament now t rk) = false := by
  simp [tickGuard, finish_tournament]

theorem revealedOk_set_eliminated (c : RoundCommit) :
    revealedOk { c with eliminated := true } = revealedOk c := rfl

theorem markNonRevealers_idem (l : List RoundCommit) :
    markNonRevealers (markNonRevealers l) = markNonRevealers l := by
  induction l with
  | nil => rfl
  | cons c l ih =>
    by_cases h : revealedOk c = true <;>
      simp [markNonRevealers, h, revealedOk_set_eliminated] at ih ⊢ <;>
      simpa [markNonRevealers] using ih

theorem filterMap_mark {β : Type} (g : RoundCommit → Option β)
    (hg : ∀ c, g { c with eliminated := true } = g c) (l : List RoundCommit) :
    (markNonRevealers l).filterMap g = l.filterMap g := by
  induction l with
  | nil => rfl
  | cons c l ih =>
    simp only [markNonRevealers, List.map_cons] at ih ⊢
    by_cases h : revealedOk c = true
    · rw [if_pos h, List.filterMap_cons, List.filterMap_cons, ih]
    · rw [if_neg h, List.filterMap_cons, List.filterMap_cons, hg c, ih]

theorem revealedSalts_mark (l : List RoundCommit) :
    revealedSalts (markNonRevealers l) = revealedSalts l :=
  filterMap_mark (fun c => if revealedOk c then c.salt else none) (fun _ => rfl) l

theorem findRound_number {rounds : List Round} {n : Nat} {r : Round}
    (h : findRound rounds n = some r) : r.round_number = n := by
  unfold findRound at h
  split at h
  next x heq =>
    simp only [Option.some.injEq] at h
    have hx : x ∈ rounds.filter (fun r => decide (r.round_number = n)) := by
      rw [heq]; exact List.mem_singleton.mpr rfl
    have hprop := (List.mem_filter.mp hx).2
    simp only [decide_eq_true_eq] at hprop
    rw [← h]
    exact hprop
  next => exact absurd h (by simp)

theorem filter_replaceRound (l : List Round) (n : Nat) (x : Round)
    (hx : x.round_number = n) :
    (replaceRound l n x).filter (fun r => decide (r.round_number = n))
      = (l.filter (fun r => decide (r.round_number = n))).map (fun _ => x) := by
  induction l with
  | nil => rfl
  | cons y l ih =>
    by_cases h : y.round_number = n
    · simp [replaceRound, List.filter_cons, h, hx] at ih ⊢
      exact ih
    · simp [replaceRound, List.filter_cons, h] at ih ⊢
      exact ih

theorem findRound_replace {l : List Round} {n : Nat} {r : Round} (x : Round)
    (h : findRound l n = some r) (hx : x.round_number = n) :
    findRound (replaceRound l n x) n = some x := by
  unfold findRound at h ⊢
  rw [filter_replaceRound l n x hx]
  split at h
  next y heq =>
    rw [heq]
    rfl
  next => exact absurd h (by simp)

theorem findRound_replace_self {l : List Round} {n : Nat} {r : Round} (x : Round)
    (h : findRound l n = some r) (hx : x.round_number = r.round_number) :
    findRound (replaceRound l r.round_number x) n = some x := by
  have hrn : r.round_number = n := findRound_number h
  rw [hrn] at hx ⊢
  exact findRound_replace x h hx

theorem replaceRound_idem (l : List Round) (n : Nat) (x : Round)
    (hx : x.round_number = n) :
    replaceRound (replaceRound l n x) n x = replaceRound l n x := by
  simp only [replaceRound, List.map_map]
  refine List.map_congr_left ?_
  intro y _
  by_cases h : y.round_number = n <;> simp [Function.comp, h, hx]

/-- The only branch of resolve_round that yields no result dict is the one
where a stored salt fails to parse: some commit revealed, the secret
computation errored, and only the non-revealer marking survives in the
session. -/
theorem resolve_round_none_inv {keccak : List Nat → List Nat} {now : Nat}
    {t : Tournament} {r : Round} {t1 : Tournament}
    (h : resolve_round keccak now t r = (t1, none)) :
    (revealedSalts r.commits).isEmpty = false ∧
    compute_secret keccak (revealedSalts r.commits) = none ∧
    t1 = { t with rounds := (replaceRound t.rounds r.round_number
      { r with commits := markNonRevealers r.commits }) } := by
  unfold resolve_round at h
  simp only [] at h
  split at h
  next he =>
    rw [Prod.mk.injEq] at h
    exact absurd h.2 (by simp)
  next he =>
    split at h
    next hcs =>
      rw [Prod.mk.injEq] at h
      exact ⟨Bool.eq_false_iff.mpr he, hcs, h.1.symm⟩
    next secret hcs =>
      split at h <;>
      · rw [Prod.mk.injEq] at h
        exact absurd h.2 (by simp)

/-- Resolving the written-back round at the same instant reproduces the same
pair: the exception path of a resolution is a fixpoint of resolution. -/
theorem resolve_round_none_fix {keccak : List Nat → List Nat} {now : Nat}
    {t : Tournament} {r : Round} {t1 : Tournament}
    (h : resolve_round keccak now t r = (t1, none)) :
    resolve_round keccak now t1 { r with commits := markNonRevealers r.commits }
      = (t1, none) := by
  obtain ⟨hne, hcs, ht1⟩ := resolve_round_none_inv h
  have hsalts : revealedSalts (markNonRevealers r.commits) = revealedSalts r.commits :=
    revealedSalts_mark r.commits
  unfold resolve_round
  simp only [hsalts, hne, markNonRevealers_idem, Bool.false_eq_true, if_false, hcs]
  rw [ht1]
  have hrr : replaceRound
      (replaceRound t.rounds r.round_number { r with commits := markNonRevealers r.commits })
      r.round_number { r with commits := markNonRevealers r.commits }
      = replaceRound t.rounds r.round_number { r with commits := markNonRevealers r.commits } :=
    replaceRound_idem _ _ _ rfl
  rw [Prod.mk.injEq]
  exact ⟨congrArg (fun R => { t with rounds := R }) hrr, rfl⟩

/-- Ticking twice at one timestamp equals ticking once: after any action the
selection criterion is false for the new state, except on the exception
path, which is a fixpoint. -/
theorem tick_tick (keccak : List Nat → List Nat) (now : Nat) (t : Tournament) :
    process_phase_transitions keccak now (process_phase_transitions keccak now t)
      = process_phase_transitions keccak now t := by
  by_cases hg : tickGuard now t = true
  case neg =>
    have h1 : process_phase_transitions keccak now t = t := by
      simp [process_phase_transitions, hg]
    rw [h1, h1]
  case pos =>
    cases hr : findRound t.rounds t.current_round with
    | none =>
      have h1 : process_phase_transitions keccak now t = t := by
        simp [process_phase_transitions, hg, hr]
      rw [h1, h1]
    | some r =>
      by_cases hc : t.state = TournamentState.COMMIT
      · have h1 : process_phase_transitions keccak now t = open_reveal_phase now t r := by
          simp [process_phase_transitions, hg, hr, hc]
        rw [h1]
        simp [process_phase_transitions, tickGuard_open_reveal]
      · rcases hres : resolve_round keccak now t r with ⟨t1, ro⟩
        cases ro with
        | none =>
          have h1 : process_phase_transitions keccak now t = t1 := by
            simp [process_phase_transitions, hg, hr, hc, hres]
          obtain ⟨-, -, ht1⟩ := resolve_round_none_inv hres
          have hfix := resolve_round_none_fix hres
          subst ht1
          rw [h1]
          have hgL : tickGuard now { t with rounds := (replaceRound t.rounds r.round_number
              { r with commits := markNonRevealers r.commits }) } = true := hg
          have hcL : ¬ (Tournament.state { t with rounds := (replaceRound t.rounds
              r.round_number { r with commits := markNonRevealers r.commits }) }
                = TournamentState.COMMIT) := hc
          have hr1 : findRound (Tournament.rounds { t with rounds := (replaceRound t.rounds
              r.round_number { r with commits := markNonRevealers r.commits }) })
              (Tournament.current_round { t with rounds := (replaceRound t.rounds
                r.round_number { r with commits := markNonRevealers r.commits }) })
              = some { r with commits := markNonRevealers r.commits } := by
            show findRound (replaceRound t.rounds r.round_number
              { r with commits := markNonRevealers r.commits }) t.current_round
              = some { r with commits := markNonRevealers r.commits }
            exact findRound_replace_self _ hr rfl
          simp only [process_phase_transitions, hgL, if_true, hr1, if_neg hcL, hfix]
        | some res =>
          cases hrt : res.rtype with
          | final =>
            have h1 : process_phase_transitions keccak now t
                = finish_tournament now t1 res.ranking := by
              simp [process_phase_transitions, hg, hr, hc, hres, hrt]
            rw [h1]
            simp [process_phase_transitions, tickGuard_finish]
          | no_reveals =>
            have h1 : process_phase_transitions keccak now t
                = finish_tournament now t1 [] := by
              simp [process_phase_transitions, hg, hr, hc, hres, hrt]
            rw [h1]
            simp [process_phase_transitions, tickGuard_finish]
          | elimination =>
            have h1 : process_phase_transitions keccak now t
                = start_new_round now t1 res.survivors.length := by
              simp [process_phase_transitions, hg, hr, hc, hres, hrt]
            rw [h1]
            simp [process_phase_transitions, tickGuard_start_new_round]

/-- Every tick outcome either keeps the state and deadline of the input, or
lands in REVEAL or COMMIT with a freshly computed future deadline, or lands
in the terminal FINISHED state. -/
theorem tick_state_cases (keccak : List Nat → List Nat) (now : Nat) (t : Tournament) :
    ((process_phase_transitions keccak now t).state = t.state ∧
      (process_phase_transitions keccak now t).phase_deadline = t.phase_deadline) ∨
    ((process_phase_transitions keccak now t).state = TournamentState.REVEAL ∧
      (process_phase_transitions keccak now t).phase_deadline
        = some (now + REVEAL_DURATION)) ∨
    (process_phase_transitions keccak now t).state = TournamentState.FINISHED ∨
    ((process_phase_transitions keccak now t).state = TournamentState.COMMIT ∧
      (process_phase_transitions keccak now t).phase_deadline
        = some (now + COMMIT_DURATION)) := by
  by_cases hg : tickGuard now t = true
  case neg =>
    left
    simp [process_phase_transitions, hg]
  case pos =>
    cases hr : findRound t.rounds t.current_round with
    | none =>
      left
      simp [process_phase_transitions, hg, hr]
    | some r =>
      by_cases hc : t.state = TournamentState.COMMIT
      · right; left
        simp [process_phase_transitions, hg, hr, hc, open_reveal_phase]
      · rcases hres : resolve_round keccak now t r with ⟨t1, ro⟩
        cases ro with
        | none =>
          left
          obtain ⟨-, -, ht1⟩ := resolve_round_none_inv hres
          simp only [process_phase_transitions, hg, if_true, hr, if_neg hc, hres, ht1]
          trivial
        | some res =>
          cases hrt : res.rtype with
          | final =>
            right; right; left
            simp [process_phase_transitions, hg, hr, hc, hres, hrt, finish_tournament]
          | no_reveals =>
            right; right; left
            simp [process_phase_transitions, hg, hr, hc, hres, hrt, finish_tournament]
          | elimination =>
            right; right; right
            simp [process_phase_transitions, hg, hr, hc, hres, hrt, start_new_round]

/-- Witness for C10 at a concrete seven-participant input. -/
theorem C10_eliminate_partition_witness :
    ((eliminate [("a", 3), ("b", 1), ("c", 2), ("d", 9), ("e", 9), ("f", 0), ("g", 5)] 0).1 ++
      (eliminate [("a", 3), ("b", 1), ("c", 2), ("d", 9), ("e", 9), ("f", 0), ("g", 5)] 0).2).Perm
      ([("a", 3), ("b", 1), ("c", 2), ("d", 9), ("e", 9), ("f", 0), ("g", 5)].map Prod.fst) ∧
    ((eliminate [("a", 3), ("b", 1), ("c", 2), ("d", 9), ("e", 9), ("f", 0), ("g", 5)] 0).1 ++
      (eliminate [("a", 3), ("b", 1), ("c", 2), ("d", 9), ("e", 9), ("f", 0), ("g", 5)] 0).2).Nodup :=
  C10_eliminate_partition
    [("a", 3), ("b", 1), ("c", 2), ("d", 9), ("e", 9), ("f", 0), ("g", 5)] 0 (by decide)

/-- A round freshly appended with a not-yet-used round number is found by
the round lookup. -/
theorem findRound_append_fresh {l : List Round} {n : Nat} (x : Round)
    (hl : ∀ r ∈ l, r.round_number ≠ n) (hx : x.round_number = n) :
    findRound (l ++ [x]) n = some x := by
  unfold findRound
  rw [List.filter_append]
  have h1 : l.filter (fun r => decide (r.round_number = n)) = [] := by
    rw [List.filter_eq_nil_iff]
    intro a ha
    simp [hl a ha]
  rw [h1]
  simp [hx]

/-- A successful reveal submission changes neither the tournament state nor
the phase deadline (it only updates the commit row). -/
theorem submit_reveal_state_deadline {keccak : List Nat → List Nat} {now : Nat}
    {t : Tournament} {addr : String} {bid : Int} {salt : String} {t' : Tournament}
    (hok : submit_reveal keccak now t addr bid salt = Except.ok t') :
    t'.state = t.state ∧ t'.phase_deadline = t.phase_deadline := by
  unfold submit_reveal at hok
  split at hok
  · exact absurd hok (by simp)
  split at hok
  · exact absurd hok (by simp)
  split at hok
  · exact absurd hok (by simp)
  split at hok
  · exact absurd hok (by simp)
  split at hok
  · exact absurd hok (by simp)
  split at hok
  · exact absurd hok (by simp)
  split at hok
  · simp only [Except.ok.injEq] at hok
    subst hok
    exact ⟨rfl, rfl⟩
  · exact absurd hok (by simp)
  · exact absurd hok (by simp)

/-- C1: the periodic tick is idempotent: once a tick at a given timestamp has
run (in particular, once it has resolved the current round), running it
again at the same timestamp returns the state unchanged, so the round stays
resolved and no participant is eliminated a second time. -/
theorem C1_tick_idempotent (keccak : List Nat → List Nat) (now : Nat) (t : Tournament) :
    process_phase_transitions keccak now (process_phase_transitions keccak now t)
      = process_phase_transitions keccak now t :=
  tick_tick keccak now t

/-- C6 (counterexample): a mismatching reveal is rejected with an error and,
since the HTTPException rolls the session back, nothing is recorded against
the commitment; the same participant can then submit the matching pair for
the same round and it succeeds, contradicting the claim that one mismatch is
terminal for the round. -/
theorem C6_reveal_terminal_counterexample :
    submit_reveal ksum 50 c6t "0xa" 6 zeroSalt = Except.error "Bid + salt mismatch" ∧
    verify_reveal ksum c6c.commit_hash 6 zeroSalt = some false ∧
    exceptOk (submit_reveal ksum 50 c6t "0xa" 5 zeroSalt) = true := by
  refine ⟨by decide, by decide, by decide⟩

/-- C6 (amended): a reveal whose pair does not reproduce the stored hash is
rejected for that attempt only, with no state change; a later reveal by the
same participant with a matching pair succeeds and records the bid, salt and
reveal flag. Forfeiting happens only if no matching reveal arrives before
the deadline, in which case resolution eliminates the participant as a
non-revealer. -/
theorem C6_reveal_mismatch_amended (keccak : List Nat → List Nat) (now : Nat)
    (t : Tournament) (addr : String) (bidGood bidBad : Int)
    (saltGood saltBad : String) (r : Round) (c : RoundCommit)
    (hvBad : validRevealRequest bidBad saltBad = true)
    (hvGood : validRevealRequest bidGood saltGood = true)
    (hstate : t.state = TournamentState.REVEAL)
    (hdl : (match t.phase_deadline with
            | some d => decide (d < now)
            | none => false) = false)
    (hr : findRound t.rounds t.current_round = some r)
    (hcm : findCommit r.commits addr = some c)
    (hnrev : c.revealed = false)
    (hbad : verify_reveal keccak c.commit_hash bidBad saltBad = some false)
    (hgood : verify_reveal keccak c.commit_hash bidGood saltGood = some true) :
    submit_reveal keccak now t addr bidBad saltBad
      = Except.error "Bid + salt mismatch" ∧
    submit_reveal keccak now t addr bidGood saltGood
      = Except.ok { t with rounds := (replaceRound t.rounds r.round_number
          { r with commits := (replaceCommit r.commits addr
            { c with bid := some bidGood, salt := some saltGood,
                     revealed := true, revealed_at := some now }) }) } := by
  refine ⟨?_, ?_⟩ <;>
    simp [submit_reveal, hvBad, hvGood, hstate, hdl, hr, hcm, hnrev, hbad, hgood]

/-- Witness for C6 (amended) at the concrete fixture: bid 6 is rejected, bid
5 (the committed value) succeeds afterwards. -/
theorem C6_reveal_mismatch_amended_witness :
    submit_reveal ksum 50 c6t "0xa" 6 zeroSalt = Except.error "Bid + salt mismatch" ∧
    submit_reveal ksum 50 c6t "0xa" 5 zeroSalt
      = Except.ok { c6t with rounds := (replaceRound c6t.rounds c6r.round_number
          { c6r with commits := (replaceCommit c6r.commits "0xa"
            { c6c with bid := some 5, salt := some zeroSalt,
                       revealed := true, revealed_at := some 50 }) }) } :=
  C6_reveal_mismatch_amended ksum 50 c6t "0xa" 5 6 zeroSalt zeroSalt c6r c6c
    (by decide) (by decide) (by decide) (by decide) (by decide) (by decide)
    (by decide) (by decide) (by decide)

/-- C7 (counterexample): resolving a round in which nobody revealed does
succeed and yields empty survivors, but the eliminated set of the returned
void result is not empty: it holds the non-revealing committers. -/
theorem C7_resolve_void_counterexample :
    (resolve_round ksum 11 c7t c7r).2
      = some { rtype := ResolveType.no_reveals, survivors := [],
               eliminated := ["0xa"], non_revealers := ["0xa"] } ∧
    (c7r.commits.map (fun c => c.revealed)) = [false] ∧
    (["0xa"] : List String) ≠ [] := by
  refine ⟨by decide, by decide, by decide⟩

/-- C7 (amended): a round with zero reveals resolves without error into the
no-reveals void result: survivors are empty, eliminated equals the list of
all (necessarily non-revealing) committers, and instead of a derived secret
the round stores the sentinel 0 (compute_secret is never invoked). -/
theorem C7_resolve_void_amended (keccak : List Nat → List Nat) (now : Nat)
    (t : Tournament) (r : Round)
    (h : ∀ c ∈ r.commits, c.revealed = false) :
    (resolve_round keccak now t r).2
      = some { rtype := ResolveType.no_reveals, survivors := [],
               eliminated := nonRevealers r.commits,
               non_revealers := nonRevealers r.commits } ∧
    nonRevealers r.commits = r.commits.map (fun c => c.agent_address) ∧
    (resolve_round keccak now t r).1
      = { t with rounds := (replaceRound t.rounds r.round_number
          { r with secret_number := some 0, players_end := 0,
                   resolved_at := some now,
                   commits := markNonRevealers r.commits }) } := by
  have hok : ∀ c ∈ r.commits, revealedOk c = false := by
    intro c hc
    simp [revealedOk, h c hc]
  have hsalts : revealedSalts r.commits = [] := by
    rw [revealedSalts, List.filterMap_eq_nil_iff]
    intro c hc
    simp [hok c hc]
  have hnr : nonRevealers r.commits = r.commits.map (fun c => c.agent_address) := by
    rw [nonRevealers, List.filter_eq_self.mpr]
    intro c hc
    simp [hok c hc]
  have hmain : resolve_round keccak now t r
      = ({ t with rounds := (replaceRound t.rounds r.round_number
            { r with secret_number := some 0, players_end := 0,
                     resolved_at := some now,
                     commits := markNonRevealers r.commits }) },
         some { rtype := ResolveType.no_reveals, survivors := [],
                eliminated := nonRevealers r.commits,
                non_revealers := nonRevealers r.commits }) := by
    unfold resolve_round
    simp only [hsalts, List.isEmpty_nil, if_true]
  exact ⟨by rw [hmain], hnr, by rw [hmain]⟩

/-- Witness for C7 (amended) at the concrete one-commit fixture. -/
theorem C7_resolve_void_amended_witness :
    (resolve_round ksum 11 c7t c7r).2
      = some { rtype := ResolveType.no_reveals, survivors := [],
               eliminated := nonRevealers c7r.commits,
               non_revealers := nonRevealers c7r.commits } ∧
    nonRevealers c7r.commits = c7r.commits.map (fun c => c.agent_address) ∧
    (resolve_round ksum 11 c7t c7r).1
      = { c7t with rounds := (replaceRound c7t.rounds c7r.round_number
          { c7r with secret_number := some 0, players_end := 0,
                     resolved_at := some 11,
                     commits := markNonRevealers c7r.commits }) } :=
  C7_resolve_void_amended ksum 11 c7t c7r (by decide)

/-- C8 (counterexample): a tournament in the reveal phase with a passed
deadline and no reveals is finished by the tick, but finish_tournament never
clears the phase deadline, so the FINISHED tournament keeps the stale
non-null deadline, violating the claimed invariant. -/
theorem C8_deadline_counterexample :
    c8t.state = TournamentState.REVEAL ∧
    c8t.phase_deadline = some 10 ∧
    (process_phase_transitions ksum 11 c8t).state = TournamentState.FINISHED ∧
    (process_phase_transitions ksum 11 c8t).phase_deadline = some 10 := by
  refine ⟨by decide, by decide, by decide, by decide⟩

/-- C8 (amended): the invariant that survives every operation is that a
non-null phase deadline occurs only in the COMMIT, REVEAL or FINISHED state
(finished tournaments keep the stale deadline of their last phase); it is
preserved by the scheduler tick, by expiry cancellation, by tournament start
and by reveal submission. -/
theorem C8_deadline_inv_amended (keccak : List Nat → List Nat) (now : Nat)
    (t : Tournament) (h : phase_deadline_inv t) :
    phase_deadline_inv (process_phase_transitions keccak now t) ∧
    phase_deadline_inv (cancel_expired_tournaments now t) ∧
    phase_deadline_inv (start_tournament now t) ∧
    (∀ addr bid salt t', submit_reveal keccak now t addr bid salt = Except.ok t' →
      phase_deadline_inv t') := by
  refine ⟨?_, ?_, ?_, ?_⟩
  · rcases tick_state_cases keccak now t with ⟨hs, hd⟩ | ⟨hs, hd⟩ | hs | ⟨hs, hd⟩
    · intro hne
      rw [hs]
      exact h (by rwa [hd] at hne)
    · intro _
      exact Or.inr (Or.inl hs)
    · intro _
      exact Or.inr (Or.inr hs)
    · intro _
      exact Or.inl hs
  · unfold cancel_expired_tournaments
    by_cases hcond : t.state = TournamentState.OPEN ∧ t.created_at + CANCEL_DEADLINE < now
    · rw [if_pos hcond]
      intro hne
      exfalso
      rcases h hne with h1 | h1 | h1 <;> rw [hcond.1] at h1 <;> exact absurd h1 (by decide)
    · rw [if_neg hcond]
      exact h
  · intro _
    exact Or.inr (Or.inl rfl)
  · intro addr bid salt t' hok
    obtain ⟨hs, hd⟩ := submit_reveal_state_deadline hok
    intro hne
    rw [hs]
    exact h (by rwa [hd] at hne)

/-- Witness for C8 (amended) at a concrete tournament satisfying the
invariant. -/
theorem C8_deadline_inv_amended_witness :
    phase_deadline_inv (process_phase_transitions ksum 5 c9base) ∧
    phase_deadline_inv (cancel_expired_tournaments 5 c9base) ∧
    phase_deadline_inv (start_tournament 5 c9base) :=
  ⟨(C8_deadline_inv_amended ksum 5 c9base (by decide)).1,
   (C8_deadline_inv_amended ksum 5 c9base (by decide)).2.1,
   (C8_deadline_inv_amended ksum 5 c9base (by decide)).2.2.1⟩

/-- C9 (counterexample): a commit phase opened at time 0 has deadline
0 + COMMIT_DURATION, but the selection criterion is the strict comparison
`phase_deadline < now`, so a tick invoked exactly at the deadline performs no
transition at all, while the claim requires one at or after the deadline. -/
theorem C9_deadline_counterexample :
    (start_new_round 0 c9base 6).phase_deadline = some (0 + COMMIT_DURATION) ∧
    (start_new_round 0 c9base 6).state = TournamentState.COMMIT ∧
    process_phase_transitions ksum (0 + COMMIT_DURATION) (start_new_round 0 c9base 6)
      = start_new_round 0 c9base 6 := by
  refine ⟨by decide, by decide, by decide⟩

/-- C9 (amended): a commit phase of duration D = COMMIT_DURATION started at
t0 stores the deadline t0 + D; a tick at or before t0 + D leaves the
tournament unchanged; a tick strictly after t0 + D performs the transition to
the reveal phase exactly once — it sets a fresh reveal deadline, and a second
tick at the same timestamp is a no-op. -/
theorem C9_deadline_amended (keccak : List Nat → List Nat) (now tau alive : Nat)
    (t : Tournament)
    (hfresh : ∀ r ∈ t.rounds, r.round_number ≠ t.current_round + 1) :
    (start_new_round now t alive).phase_deadline = some (now + COMMIT_DURATION) ∧
    (tau ≤ now + COMMIT_DURATION →
      process_phase_transitions keccak tau (start_new_round now t alive)
        = start_new_round now t alive) ∧
    (now + COMMIT_DURATION < tau →
      (process_phase_transitions keccak tau (start_new_round now t alive)).state
          = TournamentState.REVEAL ∧
      (process_phase_transitions keccak tau (start_new_round now t alive)).phase_deadline
          = some (tau + REVEAL_DURATION) ∧
      process_phase_transitions keccak tau
          (process_phase_transitions keccak tau (start_new_round now t alive))
        = process_phase_transitions keccak tau (start_new_round now t alive)) := by
  refine ⟨rfl, ?_, ?_⟩
  · intro hle
    have hguard : tickGuard tau (start_new_round now t alive) = false := by
      simp only [tickGuard, start_new_round]
      simp
      omega
    simp [process_phase_transitions, hguard]
  · intro hlt
    have hguard : tickGuard tau (start_new_round now t alive) = true := by
      simp only [tickGuard, start_new_round]
      simp
      omega
    have hfr : findRound (start_new_round now t alive).rounds
        (start_new_round now t alive).current_round
        = some { round_number := t.current_round + 1, players_start := alive,
                 commit_deadline := some (now + COMMIT_DURATION) } := by
      show findRound (t.rounds ++ [_]) (t.current_round + 1) = _
      exact findRound_append_fresh _ hfresh rfl
    have hst : (start_new_round now t alive).state = TournamentState.COMMIT := rfl
    have h1 : process_phase_transitions keccak tau (start_new_round now t alive)
        = open_reveal_phase tau (start_new_round now t alive)
            { round_number := t.current_round + 1, players_start := alive,
              commit_deadline := some (now + COMMIT_DURATION) } := by
      simp [process_phase_transitions, hguard, hfr, hst]
    refine ⟨?_, ?_, tick_tick keccak tau (start_new_round now t alive)⟩
    · rw [h1]
      rfl
    · rw [h1]
      rfl

/-- Witness for C9 (amended) at the concrete fixture: deadline 300, a tick at
100 is a no-op, a tick at 301 moves the tournament to its reveal phase. -/
theorem C9_deadline_amended_witness :
    (start_new_round 0 c9base 6).phase_deadline = some (0 + COMMIT_DURATION) ∧
    process_phase_transitions ksum 100 (start_new_round 0 c9base 6)
      = start_new_round 0 c9base 6 ∧
    (process_phase_transitions ksum 301 (start_new_round 0 c9base 6)).state
      = TournamentState.REVEAL :=
  ⟨(C9_deadline_amended ksum 0 100 6 c9base (by decide)).1,
   (C9_deadline_amended ksum 0 100 6 c9base (by decide)).2.1 (by decide),
   ((C9_deadline_amended ksum 0 301 6 c9base (by decide)).2.2 (by decide)).1⟩

end ClawGame
